import Mathlib

/-!
Formal model of the race simulation and settlement logic of the Rally
Racing Manager application (`app.py`, tab "Start race!").

Monetary and physical quantities are modelled as exact rationals.  The
Python builtin `round` (round half to even on the argument's value) is
modelled by `rnd` below.  The stream of random draws consumed by the
simulation loop is passed in explicitly, one `Draw` per entry.
-/

namespace Rally

/-- Round half to even on rationals, the rounding rule of the Python
builtin `round` applied to an exact value. -/
def rnd (q : ℚ) : ℤ :=
  if q - ⌊q⌋ = 1 / 2 then (if 2 ∣ ⌊q⌋ then ⌊q⌋ else ⌊q⌋ + 1) else round q

/-- Python `round(q, 2)` on an exact rational value. -/
def round2 (q : ℚ) : ℚ := (rnd (100 * q) : ℚ) / 100

/-- Python `round(q, 3)` on an exact rational value. -/
def round3 (q : ℚ) : ℚ := (rnd (1000 * q) : ℚ) / 1000

theorem rnd_nonneg {q : ℚ} (h : 0 ≤ q) : 0 ≤ rnd q := by
  unfold rnd
  have hf : (0 : ℤ) ≤ ⌊q⌋ := Int.floor_nonneg.mpr h
  split
  · split <;> omega
  · rw [round_eq]
    exact Int.floor_nonneg.mpr (by linarith)

theorem rnd_le (q : ℚ) : (rnd q : ℚ) ≤ q + 1 / 2 := by
  unfold rnd
  have hfl : (⌊q⌋ : ℚ) ≤ q := Int.floor_le q
  split
  · rename_i htie
    have hq : (⌊q⌋ : ℚ) = q - 1 / 2 := by linarith
    split <;> push_cast <;> linarith
  · rw [round_eq]
    have := Int.floor_le (q + 1 / 2)
    linarith

theorem round2_nonneg {q : ℚ} (h : 0 ≤ q) : 0 ≤ round2 q := by
  unfold round2
  have : (0 : ℚ) ≤ (rnd (100 * q) : ℚ) := by
    exact_mod_cast rnd_nonneg (by linarith)
  positivity

theorem round2_le (q : ℚ) : round2 q ≤ q + 1 / 200 := by
  unfold round2
  have := rnd_le (100 * q)
  linarith

/-- A row of `CARS` joined with `TEAMS`: the static vehicle attributes and
the owning team, as read at race start (only team-assigned cars appear). -/
structure Car where
  carId : ℕ
  topSpeed : ℚ
  accel : ℚ
  rel : ℚ
  handling : ℚ
  weight : ℚ
  teamId : ℕ
deriving DecidableEq

/-- The random values one entry draws: `noise` from `normal(1.0, 0.07)`,
`u` from `rand()`, and `breakdown` from `uniform(0.7, 0.9)` (the latter is
consumed only when the reliability check `u > rel` fails). -/
structure Draw where
  noise : ℚ
  u : ℚ
  breakdown : ℚ
deriving DecidableEq

def accel_factor (c : Car) : ℚ := max 0.8 (min 1.2 (1.4 - 0.1 * c.accel))

def handling_factor (c : Car) : ℚ := 0.9 + c.handling / 1000

/-- Speed before clamping: the base speed scaled by race-day noise, with a
breakdown penalty applied when the reliability check fails. -/
def raw_speed (c : Car) (d : Draw) : ℚ :=
  let s := 0.7 * c.topSpeed * accel_factor c * handling_factor c * d.noise
  if d.u > c.rel then s * d.breakdown else s

/-- `effective_speed = max(60.0, min(raw, top_speed))`. -/
def effective_speed (c : Car) (d : Draw) : ℚ :=
  max 60 (min (raw_speed c d) c.topSpeed)

/-- One row of `RACE_RESULTS`; `avgSpeed` is stored rounded to 2 decimals
and `timeMin` rounded to 3 decimals, exactly as built in the results list. -/
structure RResult where
  carId : ℕ
  teamId : ℕ
  avgSpeed : ℚ
  timeMin : ℚ
  position : ℕ
  prize : ℚ
deriving DecidableEq, Inhabited

/-- The result record built for one entry of the simulation loop, before
positions and prizes are filled in (they are initialised to 0). -/
def simEntry (distance : ℚ) (c : Car) (d : Draw) : RResult :=
  let sp := effective_speed c d
  { carId := c.carId, teamId := c.teamId,
    avgSpeed := round2 sp,
    timeMin := round3 (distance / sp * 60),
    position := 0, prize := 0 }

/-- The sort key of `results.sort`: the rounded finish time. -/
def byTime (a b : RResult) : Prop := a.timeMin ≤ b.timeMin

instance : DecidableRel byTime := fun a b =>
  inferInstanceAs (Decidable (a.timeMin ≤ b.timeMin))

instance : IsTotal RResult byTime := ⟨fun a b => le_total a.timeMin b.timeMin⟩

instance : IsTrans RResult byTime := ⟨fun _ _ _ hab hbc => le_trans hab hbc⟩

/-- `results.sort(key=...FINISH_TIME_MIN)`: a stable sort on the rounded
finish time (insertion sort is stable, as is Python's sort). -/
def sortResults (rs : List RResult) : List RResult := rs.insertionSort byTime

/-- `for i, r in enumerate(results, start=1): r.POSITION = i`. -/
def assignPositions (rs : List RResult) : List RResult :=
  rs.zipWith (fun r i => { r with position := i }) (List.range' 1 rs.length)

/-- The simulation loop plus ranking: build a result per entry, sort by
rounded finish time, assign dense 1-based positions. -/
def simulate (distance : ℚ) (entries : List (Car × Draw)) : List RResult :=
  assignPositions (sortResults (entries.map fun e => simEntry distance e.1 e.2))

def prize_split : List ℚ := [0.6, 0.3, 0.1]

/-- `prizes = [round(prize_pool * p, 2) for p in prize_split]`. -/
def prizeList (pool : ℚ) (split : List ℚ) : List ℚ :=
  split.map fun p => round2 (pool * p)

/-- `r.PRIZE_USD = prizes[r.POSITION - 1] if r.POSITION <= len(prizes) else 0.0`. -/
def allocate (rs : List RResult) (pool : ℚ) (split : List ℚ) : List RResult :=
  rs.map fun r =>
    { r with prize := if r.position ≤ (prizeList pool split).length
                      then (prizeList pool split).getD (r.position - 1) 0 else 0 }

/-- The distinct team ids appearing in the results (the grouping keys of
`df.groupby("TEAM_ID")`; grouping order does not affect final balances). -/
def teamIds (rs : List RResult) : List ℕ := (rs.map (·.teamId)).dedup

/-- `groupby("TEAM_ID")["CAR_ID"].count()`: the team's entry count. -/
def teamEntries (rs : List RResult) (t : ℕ) : ℕ :=
  (rs.filter fun r => r.teamId = t).length

/-- `groupby("TEAM_ID")["PRIZE_USD"].sum()`: the team's total prize. -/
def teamPrize (rs : List RResult) (t : ℕ) : ℚ :=
  ((rs.filter fun r => r.teamId = t).map (·.prize)).sum

/-- `delta = PRIZE_USD - fee_total` for one grouped team row. -/
def teamDelta (rs : List RResult) (fee : ℚ) (t : ℕ) : ℚ :=
  teamPrize rs t - (teamEntries rs t : ℚ) * fee

/-- A row of `RACES`; the uid is an opaque unique token (uuid4). -/
structure Race where
  raceUid : ℕ
  track : String
  distance : ℚ
  fee : ℚ
  prizePool : ℚ
deriving DecidableEq

/-- The persistent store as the core sees it: the `RACES` rows, the
`RACE_RESULTS` rows keyed by race uid, and `TEAMS.BUDGET` by team id. -/
structure Store where
  races : List Race
  raceResults : List (ℕ × RResult)
  budget : ℕ → ℚ

/-- One SQL write issued inside the transaction. -/
inductive Op where
  | insertRace : Race → Op
  | insertResult : ℕ → RResult → Op
  | adjustBudget : ℕ → ℚ → Op

/-- Effect of one write: the two INSERTs append a row; the UPDATE adds a
relative delta to the team's budget (`BUDGET = BUDGET + delta`). -/
def applyOp (s : Store) : Op → Store
  | .insertRace r => { s with races := s.races ++ [r] }
  | .insertResult uid r => { s with raceResults := s.raceResults ++ [(uid, r)] }
  | .adjustBudget t d =>
      { s with budget := fun u => if u = t then s.budget u + d else s.budget u }

/-- The writes of one settlement, in source order: the `RACES` insert, one
`RACE_RESULTS` insert per result, one budget update per grouped team. -/
def settlementOps (race : Race) (rs : List RResult) (fee : ℚ) : List Op :=
  Op.insertRace race ::
    ((rs.map fun r => Op.insertResult race.raceUid r) ++
     ((teamIds rs).map fun t => Op.adjustBudget t (teamDelta rs fee t)))

/-- Run the pending writes; `failAt = some k` makes the k-th write raise
before taking effect, aborting the transaction. -/
def execOps (p : Store) : List Op → Option ℕ → Option Store
  | [], _ => some p
  | op :: rest, failAt =>
    match failAt with
    | some 0 => none
    | some (k + 1) => execOps (applyOp p op) rest (some k)
    | none => execOps (applyOp p op) rest none

/-- The `try: BEGIN ... COMMIT except: ROLLBACK` block: on any failure the
transaction rolls back, the committed state is the original store, and the
caller is told the race was not recorded (`false`); otherwise every write
commits (`true`). -/
def settle (st : Store) (race : Race) (rs : List RResult) (fee : ℚ)
    (failAt : Option ℕ) : Store × Bool :=
  match execOps st (settlementOps race rs fee) failAt with
  | none => (st, false)
  | some p => (p, true)

/-- The user-visible outcome of the race tab. -/
inductive Outcome where
  | noEligible
  | failed
  | completed
deriving DecidableEq

/-- The whole "Start race!" click: the `cars.empty` guard, the simulation
loop, prize allocation, and the transactional settlement. -/
def raceBlock (st : Store) (uid : ℕ) (track : String)
    (distance fee pool : ℚ) (entries : List (Car × Draw))
    (failAt : Option ℕ) : Store × Outcome :=
  if entries.isEmpty then (st, Outcome.noEligible)
  else
    let rs := allocate (simulate distance entries) pool prize_split
    let race : Race := { raceUid := uid, track := track, distance := distance,
                         fee := fee, prizePool := pool }
    match settle st race rs fee failAt with
    | (s, true) => (s, Outcome.completed)
    | (s, false) => (s, Outcome.failed)

/-- Two entries with identical attributes and identical draws, used to
produce a tie on the rounded finish time. -/
def c4entries : List (Car × Draw) :=
  [(⟨1, 200, 4, 1, 80, 1200, 10⟩, ⟨0, 1/2, 4/5⟩),
   (⟨2, 200, 4, 1, 80, 1200, 20⟩, ⟨0, 1/2, 4/5⟩)]

/-- A ranked three-entry result list (positions 1, 2, 3) over three
distinct teams, with prizes not yet filled in. -/
def c6rs : List RResult :=
  [⟨1, 1, 0, 0, 1, 0⟩, ⟨2, 2, 0, 0, 2, 0⟩, ⟨3, 3, 0, 0, 3, 0⟩]

/-- Three entries of three distinct teams whose draws pin each effective
speed exactly at the car's top speed (large noise, no breakdown), giving
exact finish times 60, 50 and 40 minutes over 100 km. -/
def c7entries : List (Car × Draw) :=
  [(⟨1, 100, 5, 1, 50, 1000, 11⟩, ⟨1000, 0, 1⟩),
   (⟨2, 120, 5, 1, 50, 1000, 22⟩, ⟨1000, 0, 1⟩),
   (⟨3, 150, 5, 1, 50, 1000, 33⟩, ⟨1000, 0, 1⟩)]

/-! ## Structural lemmas about the simulator -/

theorem length_sortResults (rs : List RResult) : (sortResults rs).length = rs.length :=
  List.length_insertionSort byTime rs

theorem length_assignPositions (rs : List RResult) :
    (assignPositions rs).length = rs.length := by
  simp [assignPositions]

theorem getElem_assignPositions (rs : List RResult) (i : ℕ)
    (h1 : i < (assignPositions rs).length) (h2 : i < rs.length) :
    (assignPositions rs)[i] = { rs[i] with position := 1 + i } := by
  have h3 : i < (List.range' 1 rs.length).length := by
    rw [List.length_range']
    exact h2
  unfold assignPositions at h1 ⊢
  rw [List.getElem_zipWith]
  have h4 : (List.range' 1 rs.length)[i] = 1 + i := by
    rw [List.getElem_range']
    omega
  rw [h4]

theorem length_simulate (distance : ℚ) (entries : List (Car × Draw)) :
    (simulate distance entries).length = entries.length := by
  simp [simulate, length_assignPositions, length_sortResults]

theorem getElem_simulate (distance : ℚ) (entries : List (Car × Draw)) (i : ℕ)
    (h1 : i < (simulate distance entries).length)
    (h2 : i < (sortResults (entries.map fun e => simEntry distance e.1 e.2)).length) :
    (simulate distance entries)[i] =
      { (sortResults (entries.map fun e => simEntry distance e.1 e.2))[i] with
        position := 1 + i } := by
  unfold simulate at h1 ⊢
  exact getElem_assignPositions _ i h1 h2

theorem sorted_simulate (distance : ℚ) (entries : List (Car × Draw)) :
    List.Sorted byTime (simulate distance entries) := by
  have hs := List.sorted_insertionSort byTime
    (entries.map fun e => simEntry distance e.1 e.2)
  rw [List.Sorted, List.pairwise_iff_getElem] at hs ⊢
  intro i j hi hj hij
  have hi2 : i < (sortResults (entries.map fun e => simEntry distance e.1 e.2)).length := by
    rw [length_sortResults]
    rw [length_simulate] at hi
    simpa using hi
  have hj2 : j < (sortResults (entries.map fun e => simEntry distance e.1 e.2)).length := by
    rw [length_sortResults]
    rw [length_simulate] at hj
    simpa using hj
  rw [getElem_simulate distance entries i hi hi2, getElem_simulate distance entries j hj hj2]
  exact hs i j hi2 hj2 hij

theorem map_position_simulate (distance : ℚ) (entries : List (Car × Draw)) :
    (simulate distance entries).map (·.position) = List.range' 1 entries.length := by
  apply List.ext_getElem
  · simp [length_simulate]
  · intro i h1 h2
    rw [List.getElem_map]
    have hi : i < (simulate distance entries).length := by simpa using h1
    have hi2 : i < (sortResults (entries.map fun e => simEntry distance e.1 e.2)).length := by
      rw [length_sortResults, List.length_map]
      rw [List.length_map, length_simulate] at h1
      exact h1
    rw [getElem_simulate distance entries i hi hi2, List.getElem_range']
    simp

/-! ## C3: effective speed range -/

/-- C3 (amended): for every vehicle whose rated top speed is at least the
60 km/h floor (every vehicle creatable through the form satisfies this),
and for every sequence of random draws, including draws that force the
breakdown branch, the clamped effective speed lies in [60, topSpeed]. -/
theorem effective_speed_in_range (c : Car) (d : Draw) (h : 60 ≤ c.topSpeed) :
    60 ≤ effective_speed c d ∧ effective_speed c d ≤ c.topSpeed :=
  ⟨le_max_left _ _, max_le h (min_le_right _ _)⟩

/-- C3 witness: a concrete reliability-zero car in the breakdown branch. -/
theorem effective_speed_in_range_witness :
    60 ≤ effective_speed ⟨1, 200, 4, 0, 80, 1200, 1⟩ ⟨1, 1/2, 4/5⟩ ∧
      effective_speed ⟨1, 200, 4, 0, 80, 1200, 1⟩ ⟨1, 1/2, 4/5⟩ ≤
        (⟨1, 200, 4, 0, 80, 1200, 1⟩ : Car).topSpeed :=
  effective_speed_in_range _ _ (by norm_num)

/-- C3 counterexample: a vehicle with positive rated top speed below the
60 km/h floor. The clamp `max(60, min(speed, top))` returns 60, which is
strictly above the rated top speed, so the output is outside
[60, topSpeed] and the claim as stated fails. -/
theorem effective_speed_cex :
    (0 : ℚ) < (⟨9, 50, 5, 1, 50, 1000, 1⟩ : Car).topSpeed ∧
      (⟨9, 50, 5, 1, 50, 1000, 1⟩ : Car).topSpeed <
        effective_speed ⟨9, 50, 5, 1, 50, 1000, 1⟩ ⟨1, 1/2, 4/5⟩ := by
  refine ⟨by norm_num, ?_⟩
  show (50 : ℚ) < max 60 (min (raw_speed _ _) 50)
  have h1 : (50 : ℚ) < 60 := by norm_num
  exact lt_of_lt_of_le h1 (le_max_left _ _)

/-! ## C4: positions are a dense permutation, ordered by finish time -/

/-- C4 (amended): for every non-empty list of N entries the simulator
returns exactly N results, the position values read off in output order
are exactly 1..N, and a result with a smaller position has a rounded
finish time less than or equal to that of any result with a larger
position. The converse direction of the original claim fails when two
rounded finish times tie, so "not greater time" does not imply "smaller
position". -/
theorem simulate_ranked (distance : ℚ) (entries : List (Car × Draw))
    (h : entries ≠ []) :
    (simulate distance entries).length = entries.length ∧
    (simulate distance entries).map (·.position) = List.range' 1 entries.length ∧
    ∀ r ∈ simulate distance entries, ∀ s ∈ simulate distance entries,
      r.position < s.position → r.timeMin ≤ s.timeMin := by
  refine ⟨length_simulate distance entries, map_position_simulate distance entries, ?_⟩
  intro r hr s hs hlt
  rw [List.mem_iff_getElem] at hr hs
  obtain ⟨i, hi, rfl⟩ := hr
  obtain ⟨j, hj, rfl⟩ := hs
  have hi2 : i < (sortResults (entries.map fun e => simEntry distance e.1 e.2)).length := by
    rw [length_sortResults, List.length_map]
    rw [length_simulate] at hi
    exact hi
  have hj2 : j < (sortResults (entries.map fun e => simEntry distance e.1 e.2)).length := by
    rw [length_sortResults, List.length_map]
    rw [length_simulate] at hj
    exact hj
  rw [getElem_simulate distance entries i hi hi2, getElem_simulate distance entries j hj hj2] at hlt ⊢
  have hij : i < j := by simpa using hlt
  have := sorted_simulate distance entries
  rw [List.Sorted, List.pairwise_iff_getElem] at this
  have hbt := this i j hi hj hij
  rw [getElem_simulate distance entries i hi hi2, getElem_simulate distance entries j hj hj2] at hbt
  exact hbt

set_option maxRecDepth 8000 in
/-- C4 witness: at the two-entry input, position 1 and position 2 results
keep non-decreasing finish times. -/
theorem simulate_ranked_witness :
    (simulate 100 c4entries).length = c4entries.length ∧
    (simulate 100 c4entries).map (·.position) = List.range' 1 c4entries.length ∧
    ∀ r ∈ simulate 100 c4entries, ∀ s ∈ simulate 100 c4entries,
      r.position < s.position → r.timeMin ≤ s.timeMin :=
  simulate_ranked 100 c4entries (by with_unfolding_all decide)

set_option maxRecDepth 8000 in
/-- C4 counterexample: with two identical entries, both rounded finish
times are equal, so the second-placed result has a finish time not greater
than the winner's yet does not have a smaller position: the claimed
"if and only if" between position order and time order fails. -/
theorem simulate_ranked_cex :
    (simulate 100 c4entries).get ⟨1, by with_unfolding_all decide⟩ ∈ simulate 100 c4entries ∧
    (simulate 100 c4entries).get ⟨0, by with_unfolding_all decide⟩ ∈ simulate 100 c4entries ∧
    (simulate 100 c4entries).get ⟨1, by with_unfolding_all decide⟩ ≠
      (simulate 100 c4entries).get ⟨0, by with_unfolding_all decide⟩ ∧
    ((simulate 100 c4entries).get ⟨1, by with_unfolding_all decide⟩).timeMin ≤
      ((simulate 100 c4entries).get ⟨0, by with_unfolding_all decide⟩).timeMin ∧
    ¬ ((simulate 100 c4entries).get ⟨1, by with_unfolding_all decide⟩).position <
      ((simulate 100 c4entries).get ⟨0, by with_unfolding_all decide⟩).position := by
  with_unfolding_all decide

/-! ## C10: rounded sort keys and stability of the sort -/

theorem filter_orderedInsert_time (a : RResult) (l : List RResult) (q : ℚ) :
    (l.orderedInsert byTime a).filter (fun r => r.timeMin = q) =
      if a.timeMin = q then a :: l.filter (fun r => r.timeMin = q)
      else l.filter (fun r => r.timeMin = q) := by
  induction l with
  | nil =>
    simp only [List.orderedInsert_nil, List.filter]
    split <;> simp_all
  | cons b l ih =>
    rw [List.orderedInsert]
    split
    · rename_i hab
      by_cases ha : a.timeMin = q <;> by_cases hb : b.timeMin = q <;>
        simp [List.filter_cons, ha, hb]
    · rename_i hab
      have hba : b.timeMin < a.timeMin := lt_of_not_le hab
      rw [List.filter_cons, List.filter_cons, ih]
      by_cases ha : a.timeMin = q
      · have hb : ¬ b.timeMin = q := by
          intro hbq
          rw [hbq, ← ha] at hba
          exact lt_irrefl _ hba
        simp [ha, hb]
      · by_cases hb : b.timeMin = q <;> simp [ha, hb]

theorem filter_sortResults (l : List RResult) (q : ℚ) :
    (sortResults l).filter (fun r => r.timeMin = q) =
      l.filter (fun r => r.timeMin = q) := by
  unfold sortResults
  induction l with
  | nil => rfl
  | cons a l ih =>
    rw [List.insertionSort, filter_orderedInsert_time]
    by_cases ha : a.timeMin = q <;> simp [List.filter_cons, ha, ih]

/-- C10: the simulator records the speed rounded to 2 decimals and the
finish time rounded to 3 decimals, sorts on that rounded finish time (not
on the exact values), and the sort is stable: restricted to any fixed
rounded finish time, the ranked output lists the tied entries in exactly
their input order, and positions 1..N follow the output order. -/
theorem simulate_stable_rounded (distance : ℚ) (entries : List (Car × Draw)) :
    (∀ c d, (simEntry distance c d).avgSpeed = round2 (effective_speed c d) ∧
       (simEntry distance c d).timeMin =
         round3 (distance / effective_speed c d * 60)) ∧
    (∀ q : ℚ,
       (sortResults (entries.map fun e => simEntry distance e.1 e.2)).filter
           (fun r => r.timeMin = q) =
         (entries.map fun e => simEntry distance e.1 e.2).filter
           (fun r => r.timeMin = q)) ∧
    simulate distance entries =
      assignPositions (sortResults (entries.map fun e => simEntry distance e.1 e.2)) ∧
    (simulate distance entries).map (·.position) = List.range' 1 entries.length :=
  ⟨fun _ _ => ⟨rfl, rfl⟩, fun q => filter_sortResults _ q, rfl,
    map_position_simulate distance entries⟩

/-! ## C5: the per-position prize formula -/

theorem rnd_zero : rnd 0 = 0 := by
  unfold rnd
  norm_num

theorem round2_zero : round2 0 = 0 := by
  rw [round2, mul_zero, rnd_zero]
  norm_num

theorem prizeList_getD (pool : ℚ) (split : List ℚ) (j : ℕ) :
    (prizeList pool split).getD j 0 = round2 (pool * split.getD j 0) := by
  unfold prizeList
  by_cases hj : j < split.length
  · rw [List.getD_eq_getElem?_getD, List.getElem?_map, List.getElem?_eq_getElem hj,
        List.getD_eq_getElem?_getD, List.getElem?_eq_getElem hj]
    rfl
  · rw [List.getD_eq_getElem?_getD, List.getElem?_map,
        List.getElem?_eq_none (by omega),
        List.getD_eq_getElem?_getD, List.getElem?_eq_none (by omega)]
    simp [round2_zero]

set_option maxRecDepth 4000 in
/-- C5: in the allocation step, the result at index i of the ranked list
receives `round(prizePool * splitCurve[p-1], 2)` when its 1-based position
p is at most the split-curve length, and exactly 0 otherwise; the
allocator is total and preserves the number of results. -/
theorem allocate_prize (rs : List RResult) (pool : ℚ) (split : List ℚ)
    (i : ℕ) (hi : i < rs.length) (hp : 1 ≤ (rs.getD i default).position) :
    (allocate rs pool split).length = rs.length ∧
    ((allocate rs pool split).getD i default).prize =
      (if (rs.getD i default).position ≤ split.length
       then round2 (pool * split.getD ((rs.getD i default).position - 1) 0)
       else 0) := by
  refine ⟨by simp [allocate], ?_⟩
  unfold allocate
  rw [List.getD_eq_getElem?_getD, List.getElem?_map, List.getElem?_eq_getElem hi]
  rw [List.getD_eq_getElem?_getD rs, List.getElem?_eq_getElem hi]
  simp only [Option.map_some', Option.getD_some]
  show (if rs[i].position ≤ (prizeList pool split).length
        then (prizeList pool split).getD (rs[i].position - 1) 0 else 0) = _
  rw [prizeList_getD]
  have hlen : (prizeList pool split).length = split.length := by simp [prizeList]
  rw [hlen]

set_option maxRecDepth 4000 in
/-- C5 witness: a one-result ranked list with a one-entry split curve. -/
theorem allocate_prize_witness :
    (allocate [⟨1, 1, 0, 0, 1, 0⟩] 10 [1/2]).length =
      ([⟨1, 1, 0, 0, 1, 0⟩] : List RResult).length ∧
    ((allocate [⟨1, 1, 0, 0, 1, 0⟩] 10 [1/2]).getD 0 default).prize =
      (if (([⟨1, 1, 0, 0, 1, 0⟩] : List RResult).getD 0 default).position ≤
            ([(1:ℚ)/2]).length
       then round2 (10 * ([(1:ℚ)/2]).getD
         ((([⟨1, 1, 0, 0, 1, 0⟩] : List RResult).getD 0 default).position - 1) 0)
       else 0) :=
  allocate_prize _ _ _ 0 (by with_unfolding_all decide)
    (by with_unfolding_all decide)

/-! ## C6: prize non-negativity and the pool bound -/

theorem sum_take_le (l : List ℚ) (h : ∀ x ∈ l, 0 ≤ x) (n : ℕ) :
    (l.take n).sum ≤ l.sum := by
  conv_rhs => rw [← List.take_append_drop n l]
  rw [List.sum_append]
  have hd : 0 ≤ (l.drop n).sum :=
    List.sum_nonneg fun x hx => h x (List.mem_of_mem_drop hx)
  linarith

theorem prizeList_sum_le (pool : ℚ) (split : List ℚ) :
    (prizeList pool split).sum ≤ pool * split.sum + split.length * (1 / 200) := by
  induction split with
  | nil => simp [prizeList]
  | cons x s ih =>
    rw [prizeList, List.map_cons, List.sum_cons, List.sum_cons]
    have h1 := round2_le (pool * x)
    rw [prizeList] at ih
    push_cast [List.length_cons]
    nlinarith [ih, h1]

theorem prizeList_nonneg (pool : ℚ) (split : List ℚ) (hpool : 0 ≤ pool)
    (hsplit : ∀ x ∈ split, 0 ≤ x) : ∀ y ∈ prizeList pool split, 0 ≤ y := by
  intro y hy
  rw [prizeList, List.mem_map] at hy
  obtain ⟨x, hx, rfl⟩ := hy
  exact round2_nonneg (mul_nonneg hpool (hsplit x hx))

theorem sum_positions_prizeList (pl : List ℚ) (n : ℕ) :
    ((List.range' 1 n).map
        (fun p => if p ≤ pl.length then pl.getD (p - 1) 0 else 0)).sum =
      (pl.take n).sum := by
  induction n with
  | zero => simp
  | succ n ih =>
    rw [List.range'_concat, List.map_append, List.sum_append, ih, List.take_succ,
        List.sum_append, List.map_singleton, List.sum_singleton]
    congr 1
    by_cases hn : n < pl.length
    · rw [if_pos (by omega), List.getElem?_eq_getElem hn]
      simp only [Option.toList_some, List.sum_singleton]
      have hidx : 1 + 1 * n - 1 = n := by omega
      rw [hidx, List.getD_eq_getElem?_getD, List.getElem?_eq_getElem hn]
      rfl
    · rw [if_neg (by omega), List.getElem?_eq_none (by omega)]
      simp

theorem getD_nonneg (l : List ℚ) (h : ∀ x ∈ l, 0 ≤ x) (j : ℕ) : 0 ≤ l.getD j 0 := by
  by_cases hj : j < l.length
  · rw [List.getD_eq_getElem?_getD, List.getElem?_eq_getElem hj]
    exact h _ (List.getElem_mem hj)
  · rw [List.getD_eq_getElem?_getD, List.getElem?_eq_none (by omega)]
    simp

/-- C6 (amended): for every ranked result list (dense positions 1..N in
output order), non-negative prize pool, and split curve of non-negative
fractions summing to at most 1, every allocated prize is non-negative and
the allocated prizes sum to at most the prize pool plus half a cent
(1/200) per split-curve entry. Rounding to 2 decimals is to nearest, so a
single payout can exceed its exact share by up to half a cent and the
total can exceed the pool by that slack; the unrounded shares never
exceed the pool. -/
theorem allocate_prizes_bounded (rs : List RResult) (pool : ℚ) (split : List ℚ)
    (hpool : 0 ≤ pool) (hsplit : ∀ x ∈ split, 0 ≤ x) (hsum : split.sum ≤ 1)
    (hpos : rs.map (·.position) = List.range' 1 rs.length) :
    (∀ r ∈ allocate rs pool split, 0 ≤ r.prize) ∧
    ((allocate rs pool split).map (·.prize)).sum ≤
      pool + split.length * (1 / 200) := by
  have hplnn : ∀ y ∈ prizeList pool split, 0 ≤ y :=
    prizeList_nonneg pool split hpool hsplit
  constructor
  · intro r hr
    unfold allocate at hr
    rw [List.mem_map] at hr
    obtain ⟨a, _, rfl⟩ := hr
    show 0 ≤ if a.position ≤ (prizeList pool split).length
             then (prizeList pool split).getD (a.position - 1) 0 else 0
    split
    · exact getD_nonneg _ hplnn _
    · exact le_refl 0
  · have hmap : (allocate rs pool split).map (·.prize) =
        (rs.map (·.position)).map
          (fun p => if p ≤ (prizeList pool split).length
                    then (prizeList pool split).getD (p - 1) 0 else 0) := by
      unfold allocate
      rw [List.map_map, List.map_map]
      rfl
    rw [hmap, hpos, sum_positions_prizeList]
    have h1 : ((prizeList pool split).take rs.length).sum ≤ (prizeList pool split).sum :=
      sum_take_le _ hplnn _
    have h2 := prizeList_sum_le pool split
    have h3 : pool * split.sum ≤ pool * 1 := by
      exact mul_le_mul_of_nonneg_left hsum hpool
    rw [mul_one] at h3
    linarith

set_option maxRecDepth 4000 in
/-- C6 witness: one ranked result, pool 1, split curve [1/2]. -/
theorem allocate_prizes_bounded_witness :
    (∀ r ∈ allocate [(⟨1, 1, 0, 0, 1, 0⟩ : RResult)] 1 [1/2], 0 ≤ r.prize) ∧
    ((allocate [(⟨1, 1, 0, 0, 1, 0⟩ : RResult)] 1 [1/2]).map (·.prize)).sum ≤
      1 + ([(1:ℚ)/2]).length * (1 / 200) :=
  allocate_prizes_bounded _ _ _ (by norm_num)
    (by intro x hx; rw [List.mem_singleton] at hx; rw [hx]; norm_num)
    (by norm_num) (by with_unfolding_all decide)

set_option maxRecDepth 8000 in
/-- C6 counterexample: pool 0.02 with the curve [0.4, 0.3, 0.3] (all
non-negative, summing to exactly 1) on a ranked three-entry list: each
payout rounds up to 0.01, so the payouts sum to 0.03, strictly exceeding
the 0.02 pool. The claimed bound `sum ≤ prizePool` fails. -/
theorem allocate_prizes_bounded_cex :
    ((0:ℚ) ≤ 2/100) ∧ (∀ x ∈ [(2:ℚ)/5, 3/10, 3/10], 0 ≤ x) ∧
    ([(2:ℚ)/5, 3/10, 3/10].sum ≤ 1) ∧
    c6rs.map (·.position) = List.range' 1 c6rs.length ∧
    ¬ (((allocate c6rs (2/100) [2/5, 3/10, 3/10]).map (·.prize)).sum ≤ 2/100) := by
  with_unfolding_all decide

/-! ## C7: the three-team scenario -/

theorem map_teamId_allocate (rs : List RResult) (pool : ℚ) (split : List ℚ) :
    (allocate rs pool split).map (·.teamId) = rs.map (·.teamId) := by
  unfold allocate
  rw [List.map_map]
  rfl

theorem map_position_allocate (rs : List RResult) (pool : ℚ) (split : List ℚ) :
    (allocate rs pool split).map (·.position) = rs.map (·.position) := by
  unfold allocate
  rw [List.map_map]
  rfl

theorem allocate_mem_prize (rs : List RResult) (pool : ℚ) (split : List ℚ) :
    ∀ r ∈ allocate rs pool split,
      r.prize = if r.position ≤ (prizeList pool split).length
                then (prizeList pool split).getD (r.position - 1) 0 else 0 := by
  intro r hr
  unfold allocate at hr
  rw [List.mem_map] at hr
  obtain ⟨a, _, rfl⟩ := hr
  rfl

theorem map_teamId_assignPositions (rs : List RResult) :
    (assignPositions rs).map (·.teamId) = rs.map (·.teamId) := by
  apply List.ext_getElem
  · simp [length_assignPositions]
  · intro i h1 h2
    have hb1 : i < (assignPositions rs).length := by simpa using h1
    have hb2 : i < rs.length := by simpa using h2
    rw [List.getElem_map, List.getElem_map, getElem_assignPositions rs i hb1 hb2]

theorem teamIds_simulate_perm (distance : ℚ) (entries : List (Car × Draw)) :
    ((simulate distance entries).map (·.teamId)).Perm
      (entries.map fun e => e.1.teamId) := by
  unfold simulate
  rw [map_teamId_assignPositions]
  have hp : (sortResults (entries.map fun e => simEntry distance e.1 e.2)).Perm
      (entries.map fun e => simEntry distance e.1 e.2) :=
    List.perm_insertionSort byTime _
  have hm := hp.map (·.teamId)
  rw [List.map_map] at hm
  exact hm

/-- General form of the three-team scenario: with fee 1000, pool 10000 and
the default split curve, three entries of three pairwise distinct teams
always produce the grouped delta list [5000, 2000, 0] (in finishing
order). -/
theorem three_team_deltas_aux (distance : ℚ) (e1 e2 e3 : Car × Draw)
    (h12 : e1.1.teamId ≠ e2.1.teamId) (h13 : e1.1.teamId ≠ e3.1.teamId)
    (h23 : e2.1.teamId ≠ e3.1.teamId) (rs : List RResult)
    (hrs : rs = allocate (simulate distance [e1, e2, e3]) 10000 prize_split) :
    (teamIds rs).map (teamDelta rs 1000) = [5000, 2000, 0] := by
  have hlen : rs.length = 3 := by
    rw [hrs]
    simp [allocate, length_simulate]
  have hpos : rs.map (·.position) = [1, 2, 3] := by
    rw [hrs, map_position_allocate, map_position_simulate]
    rfl
  have hteam : (rs.map (·.teamId)).Perm
      [e1.1.teamId, e2.1.teamId, e3.1.teamId] := by
    rw [hrs, map_teamId_allocate]
    exact teamIds_simulate_perm distance [e1, e2, e3]
  have hnd : (rs.map (·.teamId)).Nodup := by
    rw [hteam.nodup_iff]
    simp [List.nodup_cons, h12, h13, h23]
  have hpl : prizeList 10000 prize_split = [6000, 3000, 1000] := by
    norm_num [prizeList, prize_split, round2, rnd, round_eq]
  have hprize : ∀ r ∈ rs, r.prize =
      if r.position ≤ 3 then ([(6000:ℚ), 3000, 1000]).getD (r.position - 1) 0
      else 0 := by
    intro r hr
    rw [hrs] at hr
    have := allocate_mem_prize _ _ _ r hr
    rw [hpl] at this
    exact this
  obtain ⟨a, b, c, habc⟩ := List.length_eq_three.mp hlen
  subst habc
  simp only [List.map_cons, List.map_nil] at hpos
  have ha : a.position = 1 := by injection hpos with h1 h2
  have hbc' : b.position = 2 ∧ c.position = 3 := by
    injection hpos with h1 h2
    injection h2 with h3 h4
    injection h4 with h5 h6
    exact ⟨h3, h5⟩
  obtain ⟨hb, hc⟩ := hbc'
  simp only [List.map_cons, List.map_nil, List.nodup_cons, List.mem_cons,
    List.mem_singleton, List.not_mem_nil] at hnd
  have hab : a.teamId ≠ b.teamId := fun h => hnd.1 (Or.inl h)
  have hac : a.teamId ≠ c.teamId := fun h => hnd.1 (Or.inr (Or.inl h))
  have hbc : b.teamId ≠ c.teamId := fun h => hnd.2.1 (Or.inl h)
  have hpa : a.prize = 6000 := by
    have := hprize a (by simp)
    rw [ha] at this
    simpa using this
  have hpb : b.prize = 3000 := by
    have := hprize b (by simp)
    rw [hb] at this
    simpa using this
  have hpc : c.prize = 1000 := by
    have := hprize c (by simp)
    rw [hc] at this
    simpa using this
  have htids : teamIds [a, b, c] = [a.teamId, b.teamId, c.teamId] := by
    unfold teamIds
    rw [List.dedup_eq_self.mpr]
    · simp
    · simp [List.nodup_cons, hab, hac, hbc]
  rw [htids]
  have hda : teamDelta [a, b, c] 1000 a.teamId = 5000 := by
    unfold teamDelta teamPrize teamEntries
    norm_num [List.filter_cons, Ne.symm hab, Ne.symm hac, hpa]
  have hdb : teamDelta [a, b, c] 1000 b.teamId = 2000 := by
    unfold teamDelta teamPrize teamEntries
    norm_num [List.filter_cons, hab, Ne.symm hbc, hpb]
  have hdc : teamDelta [a, b, c] 1000 c.teamId = 0 := by
    unfold teamDelta teamPrize teamEntries
    norm_num [List.filter_cons, hac, hbc, hpc]
  rw [List.map_cons, List.map_cons, List.map_cons, List.map_nil, hda, hdb, hdc]

/-- C7 (amended): for every race with exactly 3 entries of 3 pairwise
distinct teams, fee 1000, prize pool 10000 and split curve
[0.6, 0.3, 0.1], the grouped team deltas (pre-rounding, here exact) are
+5000 for the winning team, +2000 for second, and 0 for third — the 1000
third prize exactly cancels the fee — and the three deltas sum to
7000 = pool - total fees, not 0. -/
theorem three_team_deltas (distance : ℚ) (e1 e2 e3 : Car × Draw)
    (h12 : e1.1.teamId ≠ e2.1.teamId) (h13 : e1.1.teamId ≠ e3.1.teamId)
    (h23 : e2.1.teamId ≠ e3.1.teamId) (rs : List RResult)
    (hrs : rs = allocate (simulate distance [e1, e2, e3]) 10000 prize_split) :
    (teamIds rs).map (teamDelta rs 1000) = [5000, 2000, 0] ∧
    ((teamIds rs).map (teamDelta rs 1000)).sum = 7000 := by
  have h := three_team_deltas_aux distance e1 e2 e3 h12 h13 h23 rs hrs
  rw [h]
  norm_num

/-- C7 witness: the amended statement applied at three concrete entries
with pinned speeds 100, 120 and 150 km/h over 100 km. -/
theorem three_team_deltas_witness :
    (teamIds (allocate
        (simulate 100 [(⟨1, 100, 5, 1, 50, 1000, 11⟩, ⟨1000, 0, 1⟩),
          (⟨2, 120, 5, 1, 50, 1000, 22⟩, ⟨1000, 0, 1⟩),
          (⟨3, 150, 5, 1, 50, 1000, 33⟩, ⟨1000, 0, 1⟩)]) 10000 prize_split)).map
      (teamDelta (allocate
        (simulate 100 [(⟨1, 100, 5, 1, 50, 1000, 11⟩, ⟨1000, 0, 1⟩),
          (⟨2, 120, 5, 1, 50, 1000, 22⟩, ⟨1000, 0, 1⟩),
          (⟨3, 150, 5, 1, 50, 1000, 33⟩, ⟨1000, 0, 1⟩)]) 10000 prize_split) 1000) =
      [5000, 2000, 0] ∧
    ((teamIds (allocate
        (simulate 100 [(⟨1, 100, 5, 1, 50, 1000, 11⟩, ⟨1000, 0, 1⟩),
          (⟨2, 120, 5, 1, 50, 1000, 22⟩, ⟨1000, 0, 1⟩),
          (⟨3, 150, 5, 1, 50, 1000, 33⟩, ⟨1000, 0, 1⟩)]) 10000 prize_split)).map
      (teamDelta (allocate
        (simulate 100 [(⟨1, 100, 5, 1, 50, 1000, 11⟩, ⟨1000, 0, 1⟩),
          (⟨2, 120, 5, 1, 50, 1000, 22⟩, ⟨1000, 0, 1⟩),
          (⟨3, 150, 5, 1, 50, 1000, 33⟩, ⟨1000, 0, 1⟩)]) 10000 prize_split) 1000)).sum
      = 7000 :=
  three_team_deltas 100 _ _ _ (by decide) (by decide) (by decide) _ rfl

/-- C7 counterexample: three entries of three distinct teams, fee 1000,
pool 10000, split [0.6, 0.3, 0.1]. The grouped team deltas are +5000,
+2000 and 0 — no team nets -1000 (the third prize of 1000 exactly covers
the fee) — and they sum to 7000 (pool minus total fees), not 0. -/
theorem three_team_deltas_cex :
    (teamIds (allocate (simulate 100 c7entries) 10000 prize_split)).map
        (teamDelta (allocate (simulate 100 c7entries) 10000 prize_split) 1000) =
      [5000, 2000, 0] ∧
    ((teamIds (allocate (simulate 100 c7entries) 10000 prize_split)).map
        (teamDelta (allocate (simulate 100 c7entries) 10000 prize_split) 1000)).sum
      = 7000 ∧
    (-1000 : ℚ) ∉
      (teamIds (allocate (simulate 100 c7entries) 10000 prize_split)).map
        (teamDelta (allocate (simulate 100 c7entries) 10000 prize_split) 1000) := by
  have h := three_team_deltas_aux 100
    (⟨1, 100, 5, 1, 50, 1000, 11⟩, ⟨1000, 0, 1⟩)
    (⟨2, 120, 5, 1, 50, 1000, 22⟩, ⟨1000, 0, 1⟩)
    (⟨3, 150, 5, 1, 50, 1000, 33⟩, ⟨1000, 0, 1⟩)
    (by decide) (by decide) (by decide)
    (allocate (simulate 100 c7entries) 10000 prize_split) rfl
  rw [h]
  norm_num

/-! ## Settlement: transaction lemmas -/

theorem execOps_none (ops : List Op) (p : Store) :
    execOps p ops none = some (ops.foldl applyOp p) := by
  induction ops generalizing p with
  | nil => rfl
  | cons op rest ih =>
    rw [List.foldl_cons]
    exact ih (applyOp p op)

theorem execOps_fail (ops : List Op) (p : Store) (k : ℕ) (hk : k < ops.length) :
    execOps p ops (some k) = none := by
  induction ops generalizing p k with
  | nil => simp at hk
  | cons op rest ih =>
    cases k with
    | zero => rfl
    | succ k => exact ih (applyOp p op) k (by simpa using hk)

theorem mem_races_applyOp {s : Store} {r : Race} (h : r ∈ s.races) (op : Op) :
    r ∈ (applyOp s op).races := by
  cases op with
  | insertRace x => exact List.mem_append_left _ h
  | insertResult u x => exact h
  | adjustBudget t d => exact h

theorem mem_races_foldl {s : Store} {r : Race} (ops : List Op) (h : r ∈ s.races) :
    r ∈ (ops.foldl applyOp s).races := by
  induction ops generalizing s with
  | nil => exact h
  | cons op rest ih => exact ih (mem_races_applyOp h op)

theorem mem_results_applyOp {s : Store} {pr : ℕ × RResult}
    (h : pr ∈ s.raceResults) (op : Op) : pr ∈ (applyOp s op).raceResults := by
  cases op with
  | insertRace x => exact h
  | insertResult u x => exact List.mem_append_left _ h
  | adjustBudget t d => exact h

theorem mem_results_foldl {s : Store} {pr : ℕ × RResult} (ops : List Op)
    (h : pr ∈ s.raceResults) : pr ∈ (ops.foldl applyOp s).raceResults := by
  induction ops generalizing s with
  | nil => exact h
  | cons op rest ih => exact ih (mem_results_applyOp h op)

theorem races_insert_foldl (ops : List Op) (s : Store) {r : Race}
    (h : Op.insertRace r ∈ ops) : r ∈ (ops.foldl applyOp s).races := by
  induction ops generalizing s with
  | nil => simp at h
  | cons op rest ih =>
    rw [List.foldl_cons]
    rcases List.mem_cons.mp h with h1 | h2
    · subst h1
      exact mem_races_foldl rest
        (List.mem_append_right _ (List.mem_singleton_self _))
    · exact ih (applyOp s op) h2

theorem results_insert_foldl (ops : List Op) (s : Store) {u : ℕ} {x : RResult}
    (h : Op.insertResult u x ∈ ops) :
    (u, x) ∈ (ops.foldl applyOp s).raceResults := by
  induction ops generalizing s with
  | nil => simp at h
  | cons op rest ih =>
    rw [List.foldl_cons]
    rcases List.mem_cons.mp h with h1 | h2
    · subst h1
      exact mem_results_foldl rest
        (List.mem_append_right _ (List.mem_singleton_self _))
    · exact ih (applyOp s op) h2

theorem budget_foldl_results (rs : List RResult) (u : ℕ) (s : Store) :
    ((rs.map fun r => Op.insertResult u r).foldl applyOp s).budget = s.budget := by
  induction rs generalizing s with
  | nil => rfl
  | cons r rest ih =>
    rw [List.map_cons, List.foldl_cons]
    exact ih (applyOp s (Op.insertResult u r))

theorem budget_foldl_adjust (ts : List ℕ) (f : ℕ → ℚ) (s : Store) (t : ℕ)
    (hnd : ts.Nodup) :
    ((ts.map fun t0 => Op.adjustBudget t0 (f t0)).foldl applyOp s).budget t =
      if t ∈ ts then s.budget t + f t else s.budget t := by
  induction ts generalizing s with
  | nil => simp
  | cons t0 rest ih =>
    rw [List.map_cons, List.foldl_cons]
    obtain ⟨ht0, hnd2⟩ := List.nodup_cons.mp hnd
    rw [ih _ hnd2]
    by_cases h : t = t0
    · subst h
      have hnr : t ∉ rest := ht0
      simp [hnr, applyOp]
    · by_cases hr : t ∈ rest <;> simp [applyOp, h, hr]

theorem settle_none_store (st : Store) (race : Race) (rs : List RResult)
    (fee : ℚ) :
    settle st race rs fee none =
      ((settlementOps race rs fee).foldl applyOp st, true) := by
  unfold settle
  rw [execOps_none]

theorem settle_none_budget (st : Store) (race : Race) (rs : List RResult)
    (fee : ℚ) (t : ℕ) :
    (settle st race rs fee none).1.budget t =
      if t ∈ teamIds rs then st.budget t + teamDelta rs fee t
      else st.budget t := by
  rw [settle_none_store]
  show ((settlementOps race rs fee).foldl applyOp st).budget t = _
  unfold settlementOps
  rw [List.foldl_cons, List.foldl_append,
      budget_foldl_adjust (teamIds rs) (teamDelta rs fee) _ t (List.nodup_dedup _)]
  rw [budget_foldl_results]
  rfl

/-! ## C1: the per-team balance delta -/

/-- C1: after a successful settlement, every team with at least one entry
in the race has its balance increased by exactly its prize total minus
(entry count x fee), applied as a relative delta on its previous balance,
and every team with no entry keeps its balance unchanged. -/
theorem settle_budget (st : Store) (race : Race) (rs : List RResult)
    (fee : ℚ) (t : ℕ) :
    (t ∈ rs.map (·.teamId) →
      (settle st race rs fee none).1.budget t =
        st.budget t + (teamPrize rs t - (teamEntries rs t : ℚ) * fee)) ∧
    (t ∉ rs.map (·.teamId) →
      (settle st race rs fee none).1.budget t = st.budget t) := by
  rw [settle_none_budget]
  constructor
  · intro ht
    rw [if_pos (by rw [teamIds, List.mem_dedup]; exact ht)]
    rfl
  · intro ht
    rw [if_neg (by rw [teamIds, List.mem_dedup]; exact ht)]

/-- C1 witness: one result for team 5; its balance moves by the delta, and
team 6 with no entry is untouched. -/
theorem settle_budget_witness :
    ((5 : ℕ) ∈ ([(⟨1, 5, 60, 100, 1, 6000⟩ : RResult)]).map (·.teamId) ∧
      (settle ⟨[], [], fun _ => 0⟩ ⟨7, "t", 100, 1000, 10000⟩
          [⟨1, 5, 60, 100, 1, 6000⟩] 1000 none).1.budget 5 =
        (fun _ => (0 : ℚ)) 5 +
          (teamPrize [⟨1, 5, 60, 100, 1, 6000⟩] 5 -
            (teamEntries [⟨1, 5, 60, 100, 1, 6000⟩] 5 : ℚ) * 1000)) ∧
    ((6 : ℕ) ∉ ([(⟨1, 5, 60, 100, 1, 6000⟩ : RResult)]).map (·.teamId) ∧
      (settle ⟨[], [], fun _ => 0⟩ ⟨7, "t", 100, 1000, 10000⟩
          [⟨1, 5, 60, 100, 1, 6000⟩] 1000 none).1.budget 6 =
        (fun _ => (0 : ℚ)) 6) :=
  ⟨⟨by simp,
    (settle_budget ⟨[], [], fun _ => 0⟩ ⟨7, "t", 100, 1000, 10000⟩
      [⟨1, 5, 60, 100, 1, 6000⟩] 1000 5).1 (by simp)⟩,
   ⟨by simp,
    (settle_budget ⟨[], [], fun _ => 0⟩ ⟨7, "t", 100, 1000, 10000⟩
      [⟨1, 5, 60, 100, 1, 6000⟩] 1000 6).2 (by simp)⟩⟩

/-! ## C2: settlement is all-or-nothing -/

/-- C2: if any write of the settlement sequence (the Race insert, any
RaceResult insert, any team balance update) fails, the whole transaction
rolls back: the observable store is exactly the original one — no Race
row, no RaceResult row, no balance change — and the caller is told the
race was not recorded (`false`). If no write fails, the transaction
commits and every effect is present: the Race row, every RaceResult row,
and every grouped team delta. -/
theorem settlement_atomic (st : Store) (race : Race) (rs : List RResult)
    (fee : ℚ) :
    (∀ k, k < (settlementOps race rs fee).length →
        settle st race rs fee (some k) = (st, false)) ∧
    ((settle st race rs fee none).2 = true ∧
     race ∈ (settle st race rs fee none).1.races ∧
     (∀ r ∈ rs, (race.raceUid, r) ∈ (settle st race rs fee none).1.raceResults) ∧
     (∀ t ∈ teamIds rs,
        (settle st race rs fee none).1.budget t =
          st.budget t + teamDelta rs fee t)) := by
  constructor
  · intro k hk
    unfold settle
    rw [execOps_fail _ _ _ hk]
  · refine ⟨by rw [settle_none_store], ?_, ?_, ?_⟩
    · rw [settle_none_store]
      exact races_insert_foldl _ _ (List.mem_cons_self _ _)
    · intro r hr
      rw [settle_none_store]
      apply results_insert_foldl
      apply List.mem_cons_of_mem
      apply List.mem_append_left
      exact List.mem_map_of_mem _ hr
    · intro t ht
      rw [settle_none_budget, if_pos ht]

/-- C2 witness: with one result row, failure injection at every step of
the three-op sequence leaves the store untouched and reports failure; the
uninterrupted run reports success. -/
theorem settlement_atomic_witness :
    (0 < (settlementOps ⟨7, "t", 100, 1000, 10000⟩
        [⟨1, 5, 60, 100, 1, 6000⟩] 1000).length ∧
      settle ⟨[], [], fun _ => 0⟩ ⟨7, "t", 100, 1000, 10000⟩
          [⟨1, 5, 60, 100, 1, 6000⟩] 1000 (some 0) =
        (⟨[], [], fun _ => 0⟩, false)) ∧
    (settle ⟨[], [], fun _ => 0⟩ ⟨7, "t", 100, 1000, 10000⟩
        [⟨1, 5, 60, 100, 1, 6000⟩] 1000 none).2 = true :=
  ⟨⟨by simp [settlementOps],
    (settlement_atomic ⟨[], [], fun _ => 0⟩ ⟨7, "t", 100, 1000, 10000⟩
        [⟨1, 5, 60, 100, 1, 6000⟩] 1000).1 0 (by simp [settlementOps])⟩,
   (settlement_atomic ⟨[], [], fun _ => 0⟩ ⟨7, "t", 100, 1000, 10000⟩
      [⟨1, 5, 60, 100, 1, 6000⟩] 1000).2.1⟩

/-! ## C8: the empty-entries guard -/

/-- C8: with no team-assigned vehicles the race block stops at the
`cars.empty` guard with the "no eligible participants" outcome: it does
not return an empty result list, and the store is exactly unchanged — no
Race row, no RaceResult row, no balance change is persisted. -/
theorem raceBlock_empty (st : Store) (uid : ℕ) (track : String)
    (distance fee pool : ℚ) (failAt : Option ℕ) :
    raceBlock st uid track distance fee pool [] failAt =
      (st, Outcome.noEligible) := rfl

/-! ## C9: there is no attribute validation -/

/-- Any non-empty entry list makes the race block run to completion and
persist the race when no write fails, whatever the attribute values. -/
theorem raceBlock_completes (st : Store) (uid : ℕ) (track : String)
    (distance fee pool : ℚ) (entries : List (Car × Draw))
    (h : entries ≠ []) :
    (raceBlock st uid track distance fee pool entries none).2 =
      Outcome.completed ∧
    ({ raceUid := uid, track := track, distance := distance, fee := fee,
       prizePool := pool } : Race) ∈
      (raceBlock st uid track distance fee pool entries none).1.races := by
  have hne : entries.isEmpty = false := by
    cases entries with
    | nil => exact absurd rfl h
    | cons a l => rfl
  unfold raceBlock
  rw [hne]
  simp only [Bool.false_eq_true, if_false]
  rw [settle_none_store]
  exact ⟨rfl, races_insert_foldl _ _ (List.mem_cons_self _ _)⟩

/-- C9 (amended): the race-start block performs no domain validation at
all: even when a vehicle attribute violates its constraint (non-positive
top speed, reliability above 1, ...), the run does not fail with any
InvalidAttribute error — it consumes its randomness, simulates, and (when
no write fails) persists the race. Domain constraints are enforced only
by the bounds of the data-entry form widgets. -/
theorem raceBlock_no_validation (st : Store) (uid : ℕ) (track : String)
    (distance fee pool : ℚ) (entries : List (Car × Draw))
    (h : entries ≠ []) :
    (raceBlock st uid track distance fee pool entries none).2 =
      Outcome.completed ∧
    ({ raceUid := uid, track := track, distance := distance, fee := fee,
       prizePool := pool } : Race) ∈
      (raceBlock st uid track distance fee pool entries none).1.races :=
  raceBlock_completes st uid track distance fee pool entries h

/-- C9 witness: a car whose attributes violate the domain constraints
(negative top speed, reliability above 1) still completes and persists. -/
theorem raceBlock_no_validation_witness :
    (raceBlock ⟨[], [], fun _ => 0⟩ 7 "t" 100 1000 10000
        [(⟨1, -50, 3, 3/2, 80, 1000, 1⟩, ⟨1, 1, 4/5⟩)] none).2 =
      Outcome.completed ∧
    ({ raceUid := 7, track := "t", distance := 100, fee := 1000,
       prizePool := 10000 } : Race) ∈
      (raceBlock ⟨[], [], fun _ => 0⟩ 7 "t" 100 1000 10000
        [(⟨1, -50, 3, 3/2, 80, 1000, 1⟩, ⟨1, 1, 4/5⟩)] none).1.races :=
  raceBlock_no_validation _ _ _ _ _ _ _ (by simp)

/-- C9 counterexample: with a car violating the domain constraints (top
speed -50 < 0, reliability 3/2 > 1), the run does not fail before
simulating: it completes and the race row is persisted, so the store is
not left unchanged, refuting "fails with InvalidAttribute before any
write is attempted, leaving the store unchanged". -/
theorem raceBlock_no_validation_cex :
    ((⟨1, -50, 3, 3/2, 80, 1000, 1⟩ : Car).topSpeed < 0) ∧
    (1 < (⟨1, -50, 3, 3/2, 80, 1000, 1⟩ : Car).rel) ∧
    (raceBlock ⟨[], [], fun _ => 0⟩ 7 "t" 100 1000 10000
        [(⟨1, -50, 3, 3/2, 80, 1000, 1⟩, ⟨1, 1, 4/5⟩)] none).2 =
      Outcome.completed ∧
    (raceBlock ⟨[], [], fun _ => 0⟩ 7 "t" 100 1000 10000
        [(⟨1, -50, 3, 3/2, 80, 1000, 1⟩, ⟨1, 1, 4/5⟩)] none).1.races ≠
      (⟨[], [], fun _ => 0⟩ : Store).races := by
  refine ⟨by norm_num, by norm_num, ?_, ?_⟩
  · exact (raceBlock_completes _ _ _ _ _ _ _ (by simp)).1
  · intro hcontra
    have hmem := (raceBlock_completes ⟨[], [], fun _ => 0⟩ 7 "t" 100 1000 10000
      [(⟨1, -50, 3, 3/2, 80, 1000, 1⟩, ⟨1, 1, 4/5⟩)] (by simp)).2
    rw [hcontra] at hmem
    simp at hmem

end Rally
